import Mathlib

/-!
Shallow embedding of the chunked-upload core of the solana-cli repository
(src/src/utils.rs, src/src/client.rs, src/src/main.rs, src/src/error.rs).

Bytes are modelled as natural numbers below 256 is not needed for any claim,
so payload bytes are plain Nat values.  Machine-integer casts appear
explicitly: the u32 cast of a chunk offset is taken modulo 2^32 and Nat
subtraction models the saturating subtraction used by the source.
Remote interaction (RPC and TPU clients) is abstracted as explicit data:
the per-message confirmation outcomes are a list with one Option entry per
write message, exactly the shape returned by
send_and_confirm_messages_with_spinner after the flatten in the source.
-/

namespace SolanaCli

/-- Hard transport packet limit, external constant solana_sdk packet
PACKET_DATA_SIZE = 1280 - 40 - 8 = 1232 bytes. -/
def PACKET_DATA_SIZE : Nat := 1232

/-- From src/src/utils.rs calculate_max_chunk_size: the baseline transaction
is built from the message template with offset 0 and an empty byte vector and
wrapped with one default (fixed-size) signature per required signer; tx_size
is its bincode-serialized byte length, an input of the model since the
serializer is an external collaborator.  The source returns
PACKET_DATA_SIZE.saturating_sub(tx_size).saturating_sub(1); Nat subtraction
is saturating. -/
def calculate_max_chunk_size (tx_size : Nat) : Nat :=
  PACKET_DATA_SIZE - tx_size - 1

/-- Modelled from the spec: the serialized length field of the payload vector
uses the shortvec variable-length integer encoding, one byte per 7 bits
(1 byte below 128, 2 bytes below 16384, 3 bytes above).  The encoder itself
lives in the external solana-sdk crate and is not under src/. -/
def shortvecLen (n : Nat) : Nat :=
  if n < 128 then 1 else if n < 16384 then 2 else 3

/-- Modelled from the spec: serialized byte length of the fully signed write
transaction carrying a payload of payloadLen bytes, for a message template
whose zero-payload baseline transaction serializes to base bytes.  Per the
spec, the per-message overhead (addresses, instruction tags, signature
slots) is fixed, so only the payload bytes and the growth of its
shortvec-encoded length field vary; the baseline already contains the
one-byte encoding of length zero. -/
def signedTxSize (base payloadLen : Nat) : Nat :=
  base + payloadLen + (shortvecLen payloadLen - 1)

/-- One write unit as built by the loops in write_buffer and
write_relay_round_proposal (src/src/client.rs): the u32 offset passed to the
write instruction and the chunk bytes. -/
structure WriteUnit where
  offset : Nat
  bytes : List Nat
deriving DecidableEq, Repr

/-- Fuel-indexed core of Rust slice::chunks.  The fuel starts at the slice
length and strictly decreases, so the definition is structural and reduces
inside the kernel; rustChunks instantiates the fuel correctly. -/
def rustChunksGo (c : Nat) : Nat → List Nat → List (List Nat)
  | _, [] => []
  | 0, _ :: _ => []
  | fuel + 1, x :: xs => (x :: xs).take c :: rustChunksGo c fuel ((x :: xs).drop c)

/-- Rust slice::chunks(c) for c > 0: the list of consecutive chunks of length
c, the last one shorter if the slice length is not a multiple of c.  The
c = 0 case is never taken here (slice::chunks asserts c != 0 and panics);
callers model that panic separately. -/
def rustChunks (c : Nat) (xs : List Nat) : List (List Nat) :=
  if c = 0 then [] else rustChunksGo c xs.length xs

/-- The chunk-plan loop shared by write_buffer (src/src/client.rs lines
79-83) and write_relay_round_proposal (lines 252-256):

  for (chunk, i) in data.chunks(chunk_size).zip(0..) \x7b
      write_messages.push(create_msg((i * chunk_size) as u32, chunk.to_vec()));
  \x7d

The u32 cast is the modulus by 2^32.  slice::chunks panics when chunk_size
is zero (there is no guard in the source), modelled as none. -/
def buildWriteMessages (payload : List Nat) (chunk_size : Nat) :
    Option (List WriteUnit) :=
  if chunk_size = 0 then none
  else some ((rustChunks chunk_size payload).enum.map
    fun p => ⟨p.1 * chunk_size % 2 ^ 32, p.2⟩)

/-- Fuel-indexed companion of rustChunksGo that tracks only lengths. -/
def lenChunksGo (c : Nat) : Nat → Nat → List Nat
  | _, 0 => []
  | 0, _ + 1 => []
  | fuel + 1, l + 1 => min c (l + 1) :: lenChunksGo c fuel (l + 1 - c)

/-- Lengths of the chunks of a slice of length L under chunk size c. -/
def lenChunks (c L : Nat) : List Nat :=
  if c = 0 then [] else lenChunksGo c L L

/-- The (offset, length) summary of the chunk plan for a payload of length L:
what the loop in the source produces, forgetting the chunk contents.  Stated
over the length alone so that plans of payloads too large to enumerate can
still be computed. -/
def planOffsets (c L : Nat) : List (Nat × Nat) :=
  (lenChunks c L).enum.map fun p => (p.1 * c % 2 ^ 32, p.2)

/-- The error enumeration of src/src/error.rs; payloads of external error
types are dropped, the usize payload of WriteTransactions is kept. -/
inductive Error where
  | configReadError
  | configParseError
  | invalidConfig (msg : String)
  | invalidPubkey
  | invalidProgramPath
  | programOpenError
  | programReadError
  | keypairReadError
  | keypairWriteError
  | invalidEventTimestamp
  | invalidTransactionLt
  | invalidConfiguration
  | invalidRoundNumber
  | invalidProposalRoundNumber
  | invalidProposalRelays
  | writeTransactions (n : Nat)
  | clientError
  | tpuSenderError
  | instructionError
  | stdIoError
deriving DecidableEq, Repr

/-- The aggregation tail of write_buffer (src/src/client.rs lines 94-108):
results holds one Option entry per submitted message (the remote failure
reason when the message failed); the source flattens them, keeping the Some
values, and fails with Error::WriteTransactions(count) exactly when that
collection is nonempty. -/
def writePhaseResult {ε : Type} (results : List (Option ε)) :
    Except Error Unit :=
  let transaction_errors := results.filterMap id
  if transaction_errors.isEmpty then Except.ok ()
  else Except.error (Error.writeTransactions transaction_errors.length)

/-- write_buffer (src/src/client.rs lines 62-109) with remote interaction
abstracted: base_tx_size is the serialized size of the zero-payload baseline
transaction and send_and_confirm yields the per-message outcomes.  none
models the slice::chunks panic on a zero chunk size. -/
def write_buffer {ε : Type} (base_tx_size : Nat) (program_data : List Nat)
    (send_and_confirm : List WriteUnit → List (Option ε)) :
    Option (Except Error Unit) :=
  match buildWriteMessages program_data (calculate_max_chunk_size base_tx_size) with
  | none => none
  | some write_messages => some (writePhaseResult (send_and_confirm write_messages))

/-- The chunk-plan loop of write_relay_round_proposal (src/src/client.rs
lines 252-256), transcribed separately because the source duplicates it. -/
def buildRelayWriteMessages (payload : List Nat) (chunk_size : Nat) :
    Option (List WriteUnit) :=
  if chunk_size = 0 then none
  else some ((rustChunks chunk_size payload).enum.map
    fun p => ⟨p.1 * chunk_size % 2 ^ 32, p.2⟩)

/-- The aggregation tail of write_relay_round_proposal (src/src/client.rs
lines 267-281), transcribed separately because the source duplicates it. -/
def relayWritePhaseResult {ε : Type} (results : List (Option ε)) :
    Except Error Unit :=
  let transaction_errors := results.filterMap id
  if transaction_errors.isEmpty then Except.ok ()
  else Except.error (Error.writeTransactions transaction_errors.length)

/-- write_relay_round_proposal (src/src/client.rs lines 228-282) with remote
interaction abstracted; the payload is the borsh-serialized proposal record
bytes. -/
def write_relay_round_proposal {ε : Type} (base_tx_size : Nat)
    (serialized_proposal : List Nat)
    (send_and_confirm : List WriteUnit → List (Option ε)) :
    Option (Except Error Unit) :=
  match buildRelayWriteMessages serialized_proposal
      (calculate_max_chunk_size base_tx_size) with
  | none => none
  | some write_messages => some (relayWritePhaseResult (send_and_confirm write_messages))

/-- The four lifecycle phases driven by main (src/src/main.rs): allocate is
create_buffer or create_relay_round_proposal, write is write_buffer or
write_relay_round_proposal, finalize is deploy or
finalize_relay_round_proposal, authority is set_program_authority or
set_buffer_authority. -/
inductive Phase where
  | allocate
  | write
  | finalizeStep
  | authority
deriving DecidableEq, Repr

/-- The deploy subcommand body (src/src/main.rs lines 239-263): the four
phase calls chained with the question-mark operator, each early-returning
its error.  The model records the list of phases whose call was issued and
the final result, tagging a surfaced error with the phase it came from. -/
def deployRun (a w f t : Except Error Unit) :
    List Phase × Except (Phase × Error) Unit :=
  match a with
  | Except.error e => ([Phase.allocate], Except.error (Phase.allocate, e))
  | Except.ok _ =>
    match w with
    | Except.error e =>
      ([Phase.allocate, Phase.write], Except.error (Phase.write, e))
    | Except.ok _ =>
      match f with
      | Except.error e =>
        ([Phase.allocate, Phase.write, Phase.finalizeStep],
          Except.error (Phase.finalizeStep, e))
      | Except.ok _ =>
        match t with
        | Except.error e =>
          ([Phase.allocate, Phase.write, Phase.finalizeStep, Phase.authority],
            Except.error (Phase.authority, e))
        | Except.ok _ =>
          ([Phase.allocate, Phase.write, Phase.finalizeStep, Phase.authority],
            Except.ok ())

/-- The create-relay-round subcommand body (src/src/main.rs lines 390-402):
create_relay_round_proposal, write_relay_round_proposal and
finalize_relay_round_proposal chained with the question-mark operator. -/
def relayRoundRun (a w f : Except Error Unit) :
    List Phase × Except (Phase × Error) Unit :=
  match a with
  | Except.error e => ([Phase.allocate], Except.error (Phase.allocate, e))
  | Except.ok _ =>
    match w with
    | Except.error e =>
      ([Phase.allocate, Phase.write], Except.error (Phase.write, e))
    | Except.ok _ =>
      match f with
      | Except.error e =>
        ([Phase.allocate, Phase.write, Phase.finalizeStep],
          Except.error (Phase.finalizeStep, e))
      | Except.ok _ =>
        ([Phase.allocate, Phase.write, Phase.finalizeStep], Except.ok ())

/-- The max_data_len computation of the deploy subcommand
(src/src/main.rs lines 234-237):

  let max_data_len = match value_of(arg_matches, "program-size") \x7b
      Some(len) => len * 1000,
      None => program_data.len(),
  \x7d;

The program-size argument is required, so the None branch is reached only
when the argument fails to parse as usize. -/
def deployMaxDataLen (program_size_arg : Option Nat) (program_data_len : Nat) :
    Nat :=
  match program_size_arg with
  | some len => len * 1000
  | none => program_data_len

/-- The account-creation request issued by create_buffer
(src/src/client.rs lines 30-60): the size handed to
get_minimum_balance_for_rent_exemption and the program length put into the
bpf_loader_upgradeable create_buffer instruction. -/
structure CreateBufferRequest where
  rent_size : Nat
  account_len : Nat
deriving DecidableEq, Repr

/-- create_buffer (src/src/client.rs lines 30-60) reduced to the sizes it
sends: the rent-exemption balance is requested for
UpgradeableLoaderState::programdata_len(program_len), an external size
translation passed in as programdata_len, and the creation instruction
carries program_len itself. -/
def create_buffer_request (programdata_len : Nat → Nat) (program_len : Nat) :
    CreateBufferRequest :=
  { rent_size := programdata_len program_len, account_len := program_len }

/-- Allocation issued by the upload-program-buffer subcommand
(src/src/main.rs lines 288-294): create_buffer is called with
program_data.len(). -/
def uploadProgramBufferAlloc (programdata_len : Nat → Nat)
    (program_data : List Nat) : CreateBufferRequest :=
  create_buffer_request programdata_len program_data.length

/-- Allocation issued by the deploy subcommand (src/src/main.rs line 239):
create_buffer is called with max_data_len, not with program_data.len(). -/
def deployAlloc (programdata_len : Nat → Nat) (program_size_arg : Option Nat)
    (program_data : List Nat) : CreateBufferRequest :=
  create_buffer_request programdata_len
    (deployMaxDataLen program_size_arg program_data.length)

/-- Rejection stages of the relay-set argument of create-relay-round. -/
inductive RelayArgError where
  | tooFewValues
  | tooManyValues
  | invalidPubkey
deriving DecidableEq, Repr

/-- The relay parsing loop of the create-relay-round subcommand
(src/src/main.rs lines 368-372): each value is hex-decoded and converted
with Pubkey::try_from, which fails unless the byte string has length 32.
Values are modelled post hex-decoding as byte lists. -/
def parseRelayList : List (List Nat) → Except RelayArgError (List (List Nat))
  | [] => Except.ok []
  | r :: rest =>
    if r.length = 32 then
      match parseRelayList rest with
      | Except.error e => Except.error e
      | Except.ok ps => Except.ok (r :: ps)
    else Except.error RelayArgError.invalidPubkey

/-- The relay-set front end of create-relay-round: clap enforces
min_values(MIN_RELAYS) and max_values(MAX_RELAYS) on the proposal_relays
argument (src/src/main.rs lines 172-181) when parsing the command line,
before any connection is made, and the subcommand body then parses each
relay value (lines 365-372).  MIN_RELAYS and MAX_RELAYS are constants of
the external solana_bridge crate, taken as parameters. -/
def proposalRelaysStage (minRelays maxRelays : Nat) (vals : List (List Nat)) :
    Except RelayArgError (List (List Nat)) :=
  if vals.length < minRelays then Except.error RelayArgError.tooFewValues
  else if maxRelays < vals.length then Except.error RelayArgError.tooManyValues
  else parseRelayList vals

/-- The proposal path up to serialization: only a successfully validated
relay set is handed to RelayRoundProposalEventWithLen::new and borsh
serialization (src/src/main.rs lines 377-385).  The serializer is applied
only in the ok branch, so a validation error means no serialization was
attempted. -/
def createRelayRoundPayload (minRelays maxRelays : Nat)
    (vals : List (List Nat)) (serialize : List (List Nat) → List Nat) :
    Except RelayArgError (List Nat) :=
  match proposalRelaysStage minRelays maxRelays vals with
  | Except.error e => Except.error e
  | Except.ok relays => Except.ok (serialize relays)

/-- The fuel argument of lenChunksGo is irrelevant as long as it dominates
the remaining length. -/
lemma lenChunksGo_irrel (c : Nat) (hc : c ≠ 0) :
    ∀ fuel fuel' L, L ≤ fuel → L ≤ fuel' →
      lenChunksGo c fuel L = lenChunksGo c fuel' L := by
  intro fuel
  induction fuel with
  | zero =>
    intro fuel' L hL _
    have h0 : L = 0 := Nat.le_zero.mp hL
    subst h0
    cases fuel' <;> rfl
  | succ f ih =>
    intro fuel' L hL hL'
    cases L with
    | zero => cases fuel' <;> rfl
    | succ l =>
      cases fuel' with
      | zero => omega
      | succ f' =>
        show min c (l + 1) :: lenChunksGo c f (l + 1 - c)
            = min c (l + 1) :: lenChunksGo c f' (l + 1 - c)
        congr 1
        exact ih f' (l + 1 - c) (by omega) (by omega)

/-- Unfolding equation for lenChunks. -/
lemma lenChunks_eq (c L : Nat) :
    lenChunks c L = if c = 0 ∨ L = 0 then []
      else min c L :: lenChunks c (L - c) := by
  unfold lenChunks
  by_cases hc : c = 0
  · simp [hc]
  · cases L with
    | zero =>
      rw [if_pos (Or.inr rfl)]
      split <;> rfl
    | succ l =>
      simp only [hc, if_false, Nat.succ_ne_zero, or_false]
      show min c (l + 1) :: lenChunksGo c l (l + 1 - c)
          = min c (l + 1) :: lenChunksGo c (l + 1 - c) (l + 1 - c)
      congr 1
      exact lenChunksGo_irrel c hc l (l + 1 - c) (l + 1 - c) (by omega) le_rfl

/-- The chunk plan for a payload of length L under chunk size c > 0 has
exactly ceil(L / c) entries. -/
lemma lenChunks_length (c : Nat) (hc : c ≠ 0) (L : Nat) :
    (lenChunks c L).length = (L + c - 1) / c := by
  induction L using Nat.strong_induction_on with
  | _ L ih =>
    rw [lenChunks_eq]
    by_cases hL : L = 0
    · subst hL
      simp only [hc, or_true, if_true, List.length_nil]
      symm
      exact Nat.div_eq_of_lt (by omega)
    · simp only [hc, hL, or_self, if_false, List.length_cons]
      rw [ih (L - c) (by omega)]
      rcases Nat.le_total c L with h | h
      · have h1 : L - c + c - 1 = L - 1 := by omega
        have h2 : L + c - 1 = L - 1 + c := by omega
        rw [h1, h2, Nat.add_div_right _ (by omega)]
      · have h1 : L - c = 0 := by omega
        rw [h1]
        have h2 : (0 + c - 1) / c = 0 := Nat.div_eq_of_lt (by omega)
        rw [h2]
        symm
        apply Nat.div_eq_of_lt_le (by omega) (by omega)

/-- The i-th chunk of a payload of length L under chunk size c > 0 has
length min c (L - i * c). -/
lemma lenChunks_get? (c : Nat) (hc : c ≠ 0) :
    ∀ L i, i < (lenChunks c L).length →
      (lenChunks c L).get? i = some (min c (L - i * c)) := by
  intro L
  induction L using Nat.strong_induction_on with
  | _ L ih =>
    intro i hi
    rw [lenChunks_eq] at hi ⊢
    by_cases hL : L = 0
    · simp [hc, hL] at hi
    · simp only [hc, hL, or_self, if_false, List.length_cons] at hi ⊢
      cases i with
      | zero => simp
      | succ j =>
        have hj : j < (lenChunks c (L - c)).length := by omega
        have hrec := ih (L - c) (by omega) j hj
        have harith : L - c - j * c = L - (j + 1) * c := by
          have h3 : (j + 1) * c = c + j * c := by ring
          rw [h3, ← Nat.sub_sub]
        simp only [List.get?_cons_succ]
        rw [hrec, harith]

/-- rustChunksGo and lenChunksGo agree on lengths. -/
lemma rustChunksGo_map_length (c : Nat) (hc : c ≠ 0) :
    ∀ fuel (xs : List Nat), xs.length ≤ fuel →
      (rustChunksGo c fuel xs).map List.length = lenChunksGo c fuel xs.length := by
  intro fuel
  induction fuel with
  | zero =>
    intro xs h
    have h0 : xs = [] := List.eq_nil_of_length_eq_zero (Nat.le_zero.mp h)
    subst h0
    rfl
  | succ f ih =>
    intro xs h
    cases xs with
    | nil => rfl
    | cons x l =>
      show ((x :: l).take c).length
            :: (rustChunksGo c f ((x :: l).drop c)).map List.length
          = min c (l.length + 1) :: lenChunksGo c f (l.length + 1 - c)
      rw [ih ((x :: l).drop c) (by simp only [List.length_drop]; simp at h ⊢; omega)]
      simp [List.length_take, List.length_drop]

/-- Concatenating the chunks of a slice yields the slice back. -/
lemma rustChunksGo_join (c : Nat) (hc : c ≠ 0) :
    ∀ fuel (xs : List Nat), xs.length ≤ fuel →
      (rustChunksGo c fuel xs).join = xs := by
  intro fuel
  induction fuel with
  | zero =>
    intro xs h
    have h0 : xs = [] := List.eq_nil_of_length_eq_zero (Nat.le_zero.mp h)
    subst h0
    rfl
  | succ f ih =>
    intro xs h
    cases xs with
    | nil => rfl
    | cons x l =>
      show ((x :: l).take c) ++ (rustChunksGo c f ((x :: l).drop c)).join = x :: l
      rw [ih ((x :: l).drop c) (by simp at h ⊢; omega)]
      exact List.take_append_drop c (x :: l)

/-- Every chunk produced by rustChunksGo has length at most c. -/
lemma rustChunksGo_mem_length (c : Nat) :
    ∀ fuel (xs : List Nat) chunk, chunk ∈ rustChunksGo c fuel xs →
      chunk.length ≤ c := by
  intro fuel
  induction fuel with
  | zero =>
    intro xs chunk h
    cases xs <;> simp [rustChunksGo] at h
  | succ f ih =>
    intro xs chunk h
    cases xs with
    | nil => simp [rustChunksGo] at h
    | cons x l =>
      have h2 : chunk = (x :: l).take c ∨ chunk ∈ rustChunksGo c f ((x :: l).drop c) := by
        simpa [rustChunksGo] using h
      rcases h2 with h2 | h2
      · subst h2
        exact List.length_take_le c (x :: l)
      · exact ih _ chunk h2

/-- Lengths of rustChunks match lenChunks. -/
lemma rustChunks_map_length (c : Nat) (hc : c ≠ 0) (xs : List Nat) :
    (rustChunks c xs).map List.length = lenChunks c xs.length := by
  simp only [rustChunks, lenChunks, hc, if_false]
  exact rustChunksGo_map_length c hc xs.length xs le_rfl

/-- rustChunks with a positive chunk size concatenates back to the input. -/
lemma rustChunks_join (c : Nat) (xs : List Nat) :
    (rustChunks c xs).join = xs ∨ c = 0 := by
  by_cases hc : c = 0
  · right; exact hc
  · left
    simp only [rustChunks, hc, if_false]
    exact rustChunksGo_join c hc xs.length xs le_rfl

/-- Every chunk of rustChunks has length at most c. -/
lemma rustChunks_mem_length (c : Nat) (xs : List Nat) (chunk : List Nat)
    (h : chunk ∈ rustChunks c xs) : chunk.length ≤ c := by
  by_cases hc : c = 0
  · simp [rustChunks, hc] at h
  · simp only [rustChunks, hc, if_false] at h
    exact rustChunksGo_mem_length c xs.length xs chunk h

/-- Number of chunks of rustChunks with a positive chunk size. -/
lemma rustChunks_length (c : Nat) (hc : c ≠ 0) (xs : List Nat) :
    (rustChunks c xs).length = (xs.length + c - 1) / c := by
  have h := congrArg List.length (rustChunks_map_length c hc xs)
  simpa [lenChunks_length c hc] using h

/-- Unfolding of buildWriteMessages at a positive chunk size. -/
lemma buildWriteMessages_pos (c : Nat) (hc : c ≠ 0) (payload : List Nat) :
    buildWriteMessages payload c
      = some ((rustChunks c payload).enum.map
          fun p => ⟨p.1 * c % 2 ^ 32, p.2⟩) := by
  simp [buildWriteMessages, hc]

/-- The plan produced by the write loop has exactly ceil(L / c) units. -/
lemma buildWriteMessages_length (c : Nat) (hc : c ≠ 0) (payload : List Nat)
    (us : List WriteUnit) (h : buildWriteMessages payload c = some us) :
    us.length = (payload.length + c - 1) / c := by
  rw [buildWriteMessages_pos c hc] at h
  have hus := Option.some.inj h
  subst hus
  simp [List.enum_length, rustChunks_length c hc]

/-- The i-th unit of the plan: its offset is the u32 cast of i * c and its
byte count is min c (L - i * c). -/
lemma buildWriteMessages_get (c : Nat) (hc : c ≠ 0) (payload : List Nat)
    (us : List WriteUnit) (h : buildWriteMessages payload c = some us)
    (i : Nat) (hi : i < us.length) :
    (us.get ⟨i, hi⟩).offset = i * c % 2 ^ 32 ∧
    (us.get ⟨i, hi⟩).bytes.length = min c (payload.length - i * c) := by
  rw [buildWriteMessages_pos c hc] at h
  have hus := Option.some.inj h
  subst hus
  have hi2 : i < (rustChunks c payload).length := by
    simpa [List.enum_length] using hi
  have hchunk : (rustChunks c payload)[i].length
      = min c (payload.length - i * c) := by
    have hmap : ((rustChunks c payload).map List.length).get? i
        = (lenChunks c payload.length).get? i := by
      rw [rustChunks_map_length c hc]
    have hlen : i < (lenChunks c payload.length).length := by
      rw [lenChunks_length c hc, ← rustChunks_length c hc]
      exact hi2
    rw [lenChunks_get? c hc payload.length i hlen] at hmap
    have hmap2 : ((rustChunks c payload).map List.length).get? i
        = some ((rustChunks c payload)[i].length) := by
      rw [List.get?_eq_getElem?]
      rw [List.getElem?_eq_getElem (by simpa using hi2)]
      simp
    rw [hmap2] at hmap
    exact Option.some.inj hmap
  constructor
  · simp [List.get_eq_getElem, List.getElem_map, List.getElem_enum]
  · simp only [List.get_eq_getElem, List.getElem_map, List.getElem_enum]
    exact hchunk

/-- Byte contents of the plan concatenate back to the payload. -/
lemma buildWriteMessages_join (c : Nat) (hc : c ≠ 0) (payload : List Nat)
    (us : List WriteUnit) (h : buildWriteMessages payload c = some us) :
    (us.map WriteUnit.bytes).join = payload := by
  rw [buildWriteMessages_pos c hc] at h
  have hus := Option.some.inj h
  subst hus
  rw [List.map_map]
  have hsnd : (WriteUnit.bytes ∘ fun p : Nat × List Nat =>
      (⟨p.1 * c % 2 ^ 32, p.2⟩ : WriteUnit)) = Prod.snd := by
    funext p
    rfl
  rw [hsnd, List.enum_map_snd]
  rcases rustChunks_join c payload with h | h
  · exact h
  · exact absurd h hc

/-- planOffsets has the same length as the chunk plan. -/
lemma planOffsets_length (c : Nat) (hc : c ≠ 0) (L : Nat) :
    (planOffsets c L).length = (L + c - 1) / c := by
  simp [planOffsets, List.enum_length, lenChunks_length c hc]

/-- Closed form of the i-th entry of planOffsets. -/
lemma planOffsets_get? (c : Nat) (hc : c ≠ 0) (L i : Nat)
    (hi : i < (planOffsets c L).length) :
    (planOffsets c L).get? i = some (i * c % 2 ^ 32, min c (L - i * c)) := by
  have hi2 : i < (lenChunks c L).length := by
    simpa [planOffsets, List.enum_length] using hi
  have hval := lenChunks_get? c hc L i hi2
  simp only [planOffsets]
  rw [List.get?_eq_getElem?]
  rw [List.getElem?_eq_getElem (by simpa [List.enum_length] using hi2)]
  simp only [List.getElem_map, List.getElem_enum, Option.some.injEq]
  have hval2 : (lenChunks c L)[i] = min c (L - i * c) := by
    have := hval
    rw [List.get?_eq_getElem?, List.getElem?_eq_getElem hi2] at this
    exact Option.some.inj this
  rw [hval2]

/-- The (offset, length) summary of the write loop output is planOffsets:
ties the evaluable summary used in counterexamples to the transcription of
the source loop. -/
lemma buildWriteMessages_planOffsets (c : Nat) (hc : c ≠ 0)
    (payload : List Nat) (us : List WriteUnit)
    (h : buildWriteMessages payload c = some us) :
    us.map (fun w => (w.offset, w.bytes.length)) = planOffsets c payload.length := by
  apply List.ext_get
  · simp only [List.length_map]
    rw [buildWriteMessages_length c hc payload us h, planOffsets_length c hc]
  · intro i h1 h2
    have hi : i < us.length := by simpa using h1
    have hget := buildWriteMessages_get c hc payload us h i hi
    have hplan := planOffsets_get? c hc payload.length i h2
    have hplan2 : (planOffsets c payload.length).get ⟨i, h2⟩
        = (i * c % 2 ^ 32, min c (payload.length - i * c)) := by
      have := hplan
      rw [List.get?_eq_getElem?, List.getElem?_eq_getElem h2] at this
      simpa [List.get_eq_getElem] using Option.some.inj this
    rw [hplan2]
    have hmap : (us.map fun w => (w.offset, w.bytes.length)).get ⟨i, h1⟩
        = ((us.get ⟨i, hi⟩).offset, (us.get ⟨i, hi⟩).bytes.length) := by
      simp [List.get_eq_getElem, List.getElem_map]
    rw [hmap, hget.1, hget.2]

/-- Predecessor-modulus identity used for the last chunk length. -/
lemma pred_mod_succ (C L : Nat) (hC : 0 < C) (hL : 0 < L) :
    (L - 1) % C + 1 = if L % C = 0 then C else L % C := by
  have h1 := Nat.div_add_mod L C
  have h3 : L % C < C := Nat.mod_lt L hC
  by_cases h0 : L % C = 0
  · have hq : 0 < L / C := by
      rcases Nat.eq_zero_or_pos (L / C) with h | h
      · rw [h, Nat.mul_zero] at h1
        omega
      · exact h
    have hdist : C * (L / C) = C * (L / C - 1) + C := by
      have hsplit : L / C = L / C - 1 + 1 := by omega
      rw [hsplit, Nat.mul_add, Nat.mul_one]
      have hback : L / C - 1 + 1 - 1 = L / C - 1 := by omega
      rw [hback]
    have heq : L - 1 = C * (L / C - 1) + (C - 1) := by omega
    rw [if_pos h0, heq, Nat.mul_add_mod, Nat.mod_eq_of_lt (by omega)]
    omega
  · rw [if_neg h0]
    have heq : L - 1 = C * (L / C) + (L % C - 1) := by omega
    rw [heq, Nat.mul_add_mod, Nat.mod_eq_of_lt (by omega)]
    omega

/-- Ceiling division written through the predecessor. -/
lemma ceil_div_pos (C L : Nat) (hC : 0 < C) (hL : 0 < L) :
    (L + C - 1) / C = (L - 1) / C + 1 := by
  have h : L + C - 1 = L - 1 + C := by omega
  rw [h, Nat.add_div_right _ hC]

/-- Length of the last chunk: the remainder L mod C, or C when C divides L. -/
lemma last_chunk_length (C L : Nat) (hC : 0 < C) (hL : 0 < L) :
    min C (L - ((L + C - 1) / C - 1) * C)
      = if L % C = 0 then C else L % C := by
  rw [ceil_div_pos C L hC hL]
  simp only [Nat.add_sub_cancel]
  have h2 := Nat.div_add_mod' (L - 1) C
  have h3 : (L - 1) % C < C := Nat.mod_lt _ hC
  have h4 : L - (L - 1) / C * C = (L - 1) % C + 1 := by omega
  rw [h4]
  have h5 : min C ((L - 1) % C + 1) = (L - 1) % C + 1 :=
    min_eq_right (by omega)
  rw [h5]
  exact pred_mod_succ C L hC hL

/-- Every unit index of a ceil(L / C)-sized plan starts strictly inside the
payload. -/
lemma plan_index_mul_lt (C L n i : Nat) (hC : 0 < C)
    (hn : n = (L + C - 1) / C) (hi : i < n) : i * C < L := by
  have h1 : (i + 1) * C ≤ n * C := Nat.mul_le_mul_right C hi
  have h2 : n * C ≤ L + C - 1 := by
    rw [hn]
    exact Nat.div_mul_le_self _ _
  have h3 : (i + 1) * C = i * C + C := by rw [Nat.succ_mul]
  have h4 : 1 * C ≤ n * C := Nat.mul_le_mul_right C (by omega)
  have h5 : 1 * C = C := Nat.one_mul C
  omega

/-- Claim C1 counterexample: with payload length 2^32 + 1 and chunk size
2^32 the write loop gives the second unit offset (1 * 2^32) as u32 = 0, not
1 * 2^32: the plan does not use offsets i * C and the two units overlap at
offset 0 instead of partitioning the payload range. -/
theorem c1_counterexample :
    planOffsets (2 ^ 32) (2 ^ 32 + 1) = [(0, 2 ^ 32), (0, 1)] ∧
    (planOffsets (2 ^ 32) (2 ^ 32 + 1)).map Prod.fst ≠ [0 * 2 ^ 32, 1 * 2 ^ 32] := by
  constructor
  · decide
  · decide

/-- Claim C1 (amended): for every payload of length L at most 2^32 and every
chunk size C > 0, the write pipeline builds exactly ceil(L / C) units; the
i-th has offset i * C and holds min C (L - i * C) bytes, every unit before
the last holds exactly C bytes, the last holds L mod C bytes (or C when C
divides L), and the unit bytes concatenate back to the payload, so the plan
partitions the payload with no gaps and no overlaps.  The length bound is
what the u32 offset cast forces; without it the offsets wrap. -/
theorem c1_amended (payload : List Nat) (C : Nat) (hC : 0 < C)
    (hL : payload.length ≤ 2 ^ 32) :
    ∃ us : List WriteUnit,
      buildWriteMessages payload C = some us ∧
      us.length = (payload.length + C - 1) / C ∧
      (∀ i, ∀ hi : i < us.length,
        (us.get ⟨i, hi⟩).offset = i * C ∧
        (us.get ⟨i, hi⟩).bytes.length = min C (payload.length - i * C)) ∧
      (∀ i, ∀ hi : i < us.length, i + 1 < us.length →
        (us.get ⟨i, hi⟩).bytes.length = C) ∧
      (∀ hne : us ≠ [],
        (us.getLast hne).bytes.length =
          if payload.length % C = 0 then C else payload.length % C) ∧
      (us.map WriteUnit.bytes).join = payload := by
  have hcne : C ≠ 0 := by omega
  obtain ⟨us, hus⟩ : ∃ us, buildWriteMessages payload C = some us :=
    ⟨_, buildWriteMessages_pos C hcne payload⟩
  have hlen := buildWriteMessages_length C hcne payload us hus
  refine ⟨us, hus, hlen, ?_, ?_, ?_,
    buildWriteMessages_join C hcne payload us hus⟩
  · intro i hi
    have h := buildWriteMessages_get C hcne payload us hus i hi
    refine ⟨?_, h.2⟩
    rw [h.1]
    apply Nat.mod_eq_of_lt
    have hbound := plan_index_mul_lt C payload.length us.length i hC hlen hi
    omega
  · intro i hi hnext
    have h := (buildWriteMessages_get C hcne payload us hus i hi).2
    rw [h]
    have h2 := plan_index_mul_lt C payload.length us.length (i + 1) hC hlen hnext
    have h3 : (i + 1) * C = i * C + C := by rw [Nat.succ_mul]
    omega
  · intro hne
    have hn1 : 0 < us.length := List.length_pos.mpr hne
    have hLpos : 0 < payload.length := by
      by_contra hcon
      push_neg at hcon
      have h0 : payload.length = 0 := by omega
      rw [h0] at hlen
      have hz : us.length = 0 := by
        rw [hlen]
        exact Nat.div_eq_of_lt (by omega)
      omega
    have hlast : us.getLast hne = us.get ⟨us.length - 1, by omega⟩ :=
      List.getLast_eq_get us hne
    rw [hlast]
    have h := (buildWriteMessages_get C hcne payload us hus
      (us.length - 1) (by omega)).2
    rw [h, hlen]
    exact last_chunk_length C payload.length hC hLpos

/-- Witness for claim C1 at the spec Scenario A input: a 10-byte payload
with chunk size 4 yields the plan [(0,4),(4,4),(8,2)]. -/
theorem c1_witness :
    buildWriteMessages [0, 1, 2, 3, 4, 5, 6, 7, 8, 9] 4
      = some [⟨0, [0, 1, 2, 3]⟩, ⟨4, [4, 5, 6, 7]⟩, ⟨8, [8, 9]⟩] ∧
    ∃ us : List WriteUnit,
      buildWriteMessages [0, 1, 2, 3, 4, 5, 6, 7, 8, 9] 4 = some us ∧
      us.length = 3 := by
  refine ⟨by decide, ?_⟩
  obtain ⟨us, h1, h2, _⟩ :=
    c1_amended [0, 1, 2, 3, 4, 5, 6, 7, 8, 9] 4 (by decide) (by decide)
  exact ⟨us, h1, by rw [h2]; decide⟩

/-- Every unit of a plan carries at most chunk_size bytes. -/
lemma buildWriteMessages_mem_length (c : Nat) (payload : List Nat)
    (us : List WriteUnit) (h : buildWriteMessages payload c = some us)
    (u : WriteUnit) (hu : u ∈ us) : u.bytes.length ≤ c := by
  by_cases hc : c = 0
  · subst hc
    simp [buildWriteMessages] at h
  · rw [buildWriteMessages_pos c hc payload] at h
    have husv := Option.some.inj h
    subst husv
    obtain ⟨p, hp, hpu⟩ := List.mem_map.mp hu
    have h3 := List.mem_enum_iff_getElem?.mp hp
    have h2 : p.2 ∈ rustChunks c payload := by
      apply List.get?_mem
      rw [List.get?_eq_getElem?]
      exact h3
    rw [← hpu]
    exact rustChunks_mem_length c payload p.2 h2

/-- Claim C2: when the baseline transaction size plus one fits in
PACKET_DATA_SIZE, calculate_max_chunk_size returns exactly
PACKET_DATA_SIZE - base - 1, and no unit of a plan built with that chunk
size yields a signed transaction above PACKET_DATA_SIZE. -/
theorem max_chunk_size_fits_packet (base : Nat)
    (h : base + 1 ≤ PACKET_DATA_SIZE) :
    calculate_max_chunk_size base = PACKET_DATA_SIZE - base - 1 ∧
    ∀ (payload : List Nat) (us : List WriteUnit),
      buildWriteMessages payload (calculate_max_chunk_size base) = some us →
      ∀ u ∈ us, signedTxSize base u.bytes.length ≤ PACKET_DATA_SIZE := by
  refine ⟨rfl, ?_⟩
  intro payload us hus u hu
  have hb : u.bytes.length ≤ calculate_max_chunk_size base :=
    buildWriteMessages_mem_length _ payload us hus u hu
  simp only [calculate_max_chunk_size, PACKET_DATA_SIZE] at hb h
  have h1231 : u.bytes.length ≤ 1231 := by omega
  have hsv : shortvecLen u.bytes.length ≤ 2 := by
    unfold shortvecLen
    split
    · omega
    · split
      · omega
      · omega
  simp only [signedTxSize, PACKET_DATA_SIZE]
  omega

/-- Witness for claim C2 at baseline size 1000 and payload [1, 2, 3]. -/
theorem c2_witness :
    1000 + 1 ≤ PACKET_DATA_SIZE ∧
    calculate_max_chunk_size 1000 = PACKET_DATA_SIZE - 1000 - 1 ∧
    signedTxSize 1000 ((⟨0, [1, 2, 3]⟩ : WriteUnit).bytes.length)
      ≤ PACKET_DATA_SIZE := by
  have h := max_chunk_size_fits_packet 1000 (by decide)
  refine ⟨by decide, h.1, ?_⟩
  exact h.2 [1, 2, 3] [⟨0, [1, 2, 3]⟩] (by decide) ⟨0, [1, 2, 3]⟩ (by decide)

/-- The flatten of the per-message outcomes counts the failed messages. -/
lemma length_filterMap_id {ε : Type} (l : List (Option ε)) :
    (l.filterMap id).length = l.countP (fun o => o.isSome) := by
  induction l with
  | nil => rfl
  | cons o t ih =>
    cases o with
    | none => simp [List.filterMap_cons, List.countP_cons, ih]
    | some e => simp [List.filterMap_cons, List.countP_cons, ih]

/-- Claim C4: the write phase result is Ok exactly when no message failed;
whenever at least one failed it is Error.writeTransactions carrying exactly
the number of failed messages, and every surfaced error has that shape. -/
theorem write_phase_error_iff {ε : Type} (results : List (Option ε)) :
    (writePhaseResult results = Except.ok ()
      ↔ results.countP (fun o => o.isSome) = 0) ∧
    (0 < results.countP (fun o => o.isSome) →
      writePhaseResult results
        = Except.error (Error.writeTransactions
            (results.countP fun o => o.isSome))) ∧
    (∀ e, writePhaseResult results = Except.error e →
      e = Error.writeTransactions (results.countP fun o => o.isSome) ∧
      0 < results.countP (fun o => o.isSome)) := by
  have hlen := length_filterMap_id results
  by_cases h : (results.filterMap id).isEmpty
  · have h0 : results.countP (fun o => o.isSome) = 0 := by
      rw [List.isEmpty_iff] at h
      rw [← hlen, h]
      rfl
    refine ⟨?_, ?_, ?_⟩
    · simp [writePhaseResult, h, h0]
    · intro hpos
      omega
    · intro e he
      simp [writePhaseResult, h] at he
  · have hne : (results.filterMap id).length ≠ 0 := by
      intro h0
      rw [List.isEmpty_iff] at h
      exact h (List.eq_nil_of_length_eq_zero h0)
    have hpos : 0 < results.countP (fun o => o.isSome) := by omega
    refine ⟨?_, ?_, ?_⟩
    · constructor
      · intro hok
        simp [writePhaseResult, h] at hok
      · intro h0
        omega
    · intro _
      simp [writePhaseResult, h, hlen]
    · intro e he
      simp [writePhaseResult, h, hlen] at he
      exact ⟨he.symm, hpos⟩

/-- Witness for claim C4: one of two messages failed gives
Error.writeTransactions 1, and all-confirmed gives Ok. -/
theorem c4_witness :
    0 < ([some 0, none] : List (Option Nat)).countP (fun o => o.isSome) ∧
    writePhaseResult ([some 0, none] : List (Option Nat))
      = Except.error (Error.writeTransactions
          (([some 0, none] : List (Option Nat)).countP fun o => o.isSome)) ∧
    writePhaseResult ([none, none] : List (Option Nat)) = Except.ok () :=
  ⟨by decide, (write_phase_error_iff [some 0, none]).2.1 (by decide),
    (write_phase_error_iff ([none, none] : List (Option Nat))).1.mpr (by decide)⟩

/-- Claim C8: the empty payload yields the empty plan for every positive
chunk size, and with nothing to dispatch the write phase returns Ok
immediately. -/
theorem empty_payload_immediate_ok (C : Nat) (hC : 0 < C) :
    buildWriteMessages ([] : List Nat) C = some [] ∧
    (∀ (ε : Type) (dispatch : List WriteUnit → List (Option ε)),
      dispatch [] = [] →
      (buildWriteMessages ([] : List Nat) C).map
        (fun msgs => writePhaseResult (dispatch msgs)) = some (Except.ok ())) := by
  have hcne : C ≠ 0 := by omega
  have h1 : buildWriteMessages ([] : List Nat) C = some [] := by
    rw [buildWriteMessages_pos C hcne]
    simp [rustChunks, hcne, rustChunksGo]
  refine ⟨h1, ?_⟩
  intro ε dispatch hd
  rw [h1]
  simp [hd, writePhaseResult]

/-- Witness for claim C8 at chunk size 4. -/
theorem c8_witness :
    (0 : Nat) < 4 ∧ buildWriteMessages ([] : List Nat) 4 = some [] :=
  ⟨by decide, (empty_payload_immediate_ok 4 (by decide)).1⟩

/-- Claim C3 evaluation: when the baseline transaction serializes to
PACKET_DATA_SIZE - 1 bytes or more, calculate_max_chunk_size saturates at
zero, as the spec states; but write_buffer then hands chunk size zero to
slice::chunks, which panics (modelled as none): no fatal configuration
Error value is returned to the caller, for empty and nonempty payloads
alike. -/
theorem zero_chunk_size_panics :
    calculate_max_chunk_size 1231 = 0 ∧
    calculate_max_chunk_size 1232 = 0 ∧
    calculate_max_chunk_size 5000 = 0 ∧
    (∀ dispatch : List WriteUnit → List (Option Unit),
      write_buffer 1231 [0] dispatch = none) ∧
    (∀ dispatch : List WriteUnit → List (Option Unit),
      write_buffer 1231 [] dispatch = none) := by
  refine ⟨rfl, rfl, rfl, fun dispatch => rfl, fun dispatch => rfl⟩

/-- Claim C5: with question-mark chaining, an allocate error stops the run
before any write or finalize call, and a write failure stops it before
finalize and authority transfer; the surfaced error is tagged with the
failing phase.  Stated for the deploy subcommand and the create-relay-round
subcommand. -/
theorem phase_ordering :
    (∀ (a w f t : Except Error Unit) (e : Error), a = Except.error e →
      (deployRun a w f t).1 = [Phase.allocate] ∧
      Phase.write ∉ (deployRun a w f t).1 ∧
      Phase.finalizeStep ∉ (deployRun a w f t).1 ∧
      (deployRun a w f t).2 = Except.error (Phase.allocate, e)) ∧
    (∀ (a w f t : Except Error Unit) (n : Nat), a = Except.ok () →
      w = Except.error (Error.writeTransactions n) →
      Phase.finalizeStep ∉ (deployRun a w f t).1 ∧
      Phase.authority ∉ (deployRun a w f t).1 ∧
      (deployRun a w f t).2
        = Except.error (Phase.write, Error.writeTransactions n)) ∧
    (∀ (a w f : Except Error Unit) (e : Error), a = Except.error e →
      (relayRoundRun a w f).1 = [Phase.allocate] ∧
      Phase.write ∉ (relayRoundRun a w f).1 ∧
      Phase.finalizeStep ∉ (relayRoundRun a w f).1 ∧
      (relayRoundRun a w f).2 = Except.error (Phase.allocate, e)) ∧
    (∀ (a w f : Except Error Unit) (n : Nat), a = Except.ok () →
      w = Except.error (Error.writeTransactions n) →
      Phase.finalizeStep ∉ (relayRoundRun a w f).1 ∧
      (relayRoundRun a w f).2
        = Except.error (Phase.write, Error.writeTransactions n)) := by
  refine ⟨?_, ?_, ?_, ?_⟩
  · intro a w f t e ha
    subst ha
    simp [deployRun]
  · intro a w f t n ha hw
    subst ha
    subst hw
    simp [deployRun]
  · intro a w f e ha
    subst ha
    simp [relayRoundRun]
  · intro a w f n ha hw
    subst ha
    subst hw
    simp [relayRoundRun]

/-- Witness for claim C5: a rejected allocation stops after the allocate
phase, and two failed chunks stop the relay run before finalize with the
failure count surfaced. -/
theorem c5_witness :
    (deployRun (Except.error Error.clientError) (Except.ok ()) (Except.ok ())
        (Except.ok ())).1 = [Phase.allocate] ∧
    (relayRoundRun (Except.ok ())
        (Except.error (Error.writeTransactions 2)) (Except.ok ())).2
      = Except.error (Phase.write, Error.writeTransactions 2) :=
  ⟨(phase_ordering.1 _ _ _ _ Error.clientError rfl).1,
    (phase_ordering.2.2.2 _ _ _ 2 rfl rfl).2⟩

/-- Claim C6 counterexample: with program-size argument 1 and a 100-byte
program file, the deploy subcommand allocates a buffer of 1000 bytes, not
one sized to the payload length. -/
theorem c6_counterexample :
    (deployAlloc (fun l => 45 + l) (some 1) (List.replicate 100 0)).account_len
      = 1000 ∧
    (List.replicate 100 (0 : Nat)).length = 100 ∧
    (deployAlloc (fun l => 45 + l) (some 1) (List.replicate 100 0)).account_len
      ≠ (List.replicate 100 (0 : Nat)).length := by
  refine ⟨by decide, by decide, by decide⟩

/-- Claim C6 (amended): the upload-program-buffer path allocates exactly
the program file length and computes the rent-exempt balance from that same
length through the external programdata_len size translation; the deploy
path instead allocates program-size times 1000 bytes, falling back to the
file length only when the size argument fails to parse. -/
theorem c6_amended (pd : Nat → Nat) (program_data : List Nat) (s L : Nat) :
    (uploadProgramBufferAlloc pd program_data).account_len
      = program_data.length ∧
    (uploadProgramBufferAlloc pd program_data).rent_size
      = pd program_data.length ∧
    (create_buffer_request pd L).account_len = L ∧
    (create_buffer_request pd L).rent_size = pd L ∧
    (deployAlloc pd (some s) program_data).account_len = s * 1000 ∧
    (deployAlloc pd none program_data).account_len = program_data.length :=
  ⟨rfl, rfl, rfl, rfl, rfl, rfl⟩

/-- A malformed relay identity anywhere in the list fails the parse loop. -/
lemma parseRelayList_error (vals : List (List Nat)) (r : List Nat)
    (hr : r ∈ vals) (hlen : r.length ≠ 32) :
    parseRelayList vals = Except.error RelayArgError.invalidPubkey := by
  induction vals with
  | nil => cases hr
  | cons v t ih =>
    rcases List.mem_cons.mp hr with h | h
    · subst h
      simp [parseRelayList, hlen]
    · by_cases hv : v.length = 32
      · simp [parseRelayList, hv, ih h]
      · simp [parseRelayList, hv]

/-- Claim C7: a relay set below MIN_RELAYS or above MAX_RELAYS is rejected
by the argument layer with a count error, and any relay identity that is
not exactly 32 bytes is rejected by the parse loop; in every rejection the
serializer is never applied, whatever it is. -/
theorem relay_set_validation (minRelays maxRelays : Nat)
    (vals : List (List Nat)) :
    (∀ serialize, vals.length < minRelays →
      createRelayRoundPayload minRelays maxRelays vals serialize
        = Except.error RelayArgError.tooFewValues) ∧
    (∀ serialize, minRelays ≤ vals.length → maxRelays < vals.length →
      createRelayRoundPayload minRelays maxRelays vals serialize
        = Except.error RelayArgError.tooManyValues) ∧
    (∀ serialize r, r ∈ vals → r.length ≠ 32 →
      minRelays ≤ vals.length → vals.length ≤ maxRelays →
      createRelayRoundPayload minRelays maxRelays vals serialize
        = Except.error RelayArgError.invalidPubkey) := by
  refine ⟨?_, ?_, ?_⟩
  · intro serialize hlt
    simp [createRelayRoundPayload, proposalRelaysStage, hlt]
  · intro serialize hge hgt
    have h1 : ¬ vals.length < minRelays := by omega
    simp [createRelayRoundPayload, proposalRelaysStage, h1, hgt]
  · intro serialize r hr hlen hge hle
    have h1 : ¬ vals.length < minRelays := by omega
    have h2 : ¬ maxRelays < vals.length := by omega
    simp [createRelayRoundPayload, proposalRelaysStage, h1, h2,
      parseRelayList_error vals r hr hlen]

/-- Witness for claim C7: two well-formed relays are below a MIN_RELAYS
of 3 (Scenario B shape), and a 31-byte identity in an in-range set is
rejected. -/
theorem c7_witness :
    createRelayRoundPayload 3 100 [List.replicate 32 0, List.replicate 32 1]
        (fun rs => rs.join)
      = Except.error RelayArgError.tooFewValues ∧
    createRelayRoundPayload 3 100
        [List.replicate 32 0, List.replicate 31 1, List.replicate 32 2]
        (fun rs => rs.join)
      = Except.error RelayArgError.invalidPubkey := by
  constructor
  · exact (relay_set_validation 3 100 _).1 _ (by decide)
  · exact (relay_set_validation 3 100 _).2.2 _ (List.replicate 31 1)
      (by decide) (by decide) (by decide) (by decide)

/-- Claim C9 counterexample: at payload length 2^32 + 5 with chunk size
2^32 the second unit wraps to offset 0 (its pre-cast offset 1 * 2^32
reaches 2^32), yet every unit still satisfies offset + length ≤ payload
length: the wrap breaks the partition, not the bound the claim names. -/
theorem c9_counterexample :
    planOffsets (2 ^ 32) (2 ^ 32 + 5) = [(0, 2 ^ 32), (0, 5)] ∧
    (∀ u ∈ planOffsets (2 ^ 32) (2 ^ 32 + 5), u.1 + u.2 ≤ 2 ^ 32 + 5) ∧
    2 ^ 32 ≤ 1 * 2 ^ 32 := by
  refine ⟨by decide, by decide, by decide⟩

/-- Claim C9 (amended): each unit offset is (i * chunk_size) mod 2^32, so
offsets are exact whenever the payload is at most 2^32 - 1 bytes; when some
unit start i * chunk_size reaches 2^32 (and the chunk size is at most 2^32,
as any chunk size produced by the calculator is), the cast wraps and two
adjacent offsets appear out of order or duplicated, breaking the no-overlap
partition; every unit nevertheless satisfies offset + length ≤ payload
length. -/
theorem c9_amended (c L : Nat) (hc : 0 < c) :
    (∀ i a, (planOffsets c L).get? i = some a →
      a.1 = i * c % 2 ^ 32 ∧ a.2 = min c (L - i * c) ∧ a.1 + a.2 ≤ L) ∧
    (L ≤ 2 ^ 32 - 1 → ∀ i a, (planOffsets c L).get? i = some a →
      a.1 = i * c) ∧
    (c ≤ 2 ^ 32 → (∃ i, i < (planOffsets c L).length ∧ 2 ^ 32 ≤ i * c) →
      ∃ j a b, (planOffsets c L).get? j = some a ∧
        (planOffsets c L).get? (j + 1) = some b ∧ b.1 ≤ a.1) := by
  have hcne : c ≠ 0 := by omega
  have hn := planOffsets_length c hcne L
  have key : ∀ i a, (planOffsets c L).get? i = some a →
      i < (planOffsets c L).length ∧ a = (i * c % 2 ^ 32, min c (L - i * c)) := by
    intro i a ha
    have hi : i < (planOffsets c L).length := by
      by_contra hcon
      push_neg at hcon
      rw [List.get?_eq_none.mpr hcon] at ha
      cases ha
    have hv := planOffsets_get? c hcne L i hi
    rw [hv] at ha
    exact ⟨hi, (Option.some.inj ha).symm⟩
  refine ⟨?_, ?_, ?_⟩
  · intro i a ha
    obtain ⟨hi, hav⟩ := key i a ha
    subst hav
    refine ⟨rfl, rfl, ?_⟩
    have hiL : i * c < L := plan_index_mul_lt c L _ i hc hn hi
    have hmod : i * c % 2 ^ 32 ≤ i * c := Nat.mod_le _ _
    have hmin : min c (L - i * c) ≤ L - i * c := min_le_right _ _
    omega
  · intro hL i a ha
    obtain ⟨hi, hav⟩ := key i a ha
    subst hav
    have hiL : i * c < L := plan_index_mul_lt c L _ i hc hn hi
    exact Nat.mod_eq_of_lt (by omega)
  · intro hcle hex
    obtain ⟨i, hi, hwrap⟩ := hex
    have hfind : ∃ k, 2 ^ 32 ≤ k * c := ⟨i, hwrap⟩
    have hP : 2 ^ 32 ≤ Nat.find hfind * c := Nat.find_spec hfind
    have h1 : 1 ≤ Nat.find hfind := by
      by_contra hcon
      push_neg at hcon
      have h0 : Nat.find hfind = 0 := by omega
      rw [h0, Nat.zero_mul] at hP
      omega
    have hprev : ¬ 2 ^ 32 ≤ (Nat.find hfind - 1) * c :=
      Nat.find_min hfind (by omega)
    have hi0le : Nat.find hfind ≤ i := Nat.find_min' hfind hwrap
    have hi0lt : Nat.find hfind < (planOffsets c L).length :=
      lt_of_le_of_lt hi0le hi
    have hj : Nat.find hfind - 1 < (planOffsets c L).length := by omega
    have ha := planOffsets_get? c hcne L (Nat.find hfind - 1) hj
    have hb := planOffsets_get? c hcne L (Nat.find hfind) hi0lt
    refine ⟨Nat.find hfind - 1,
      ((Nat.find hfind - 1) * c % 2 ^ 32,
        min c (L - (Nat.find hfind - 1) * c)),
      (Nat.find hfind * c % 2 ^ 32, min c (L - Nat.find hfind * c)),
      ha, ?_, ?_⟩
    · have heq : Nat.find hfind - 1 + 1 = Nat.find hfind := by omega
      rw [heq]
      exact hb
    · have hprevlt : (Nat.find hfind - 1) * c < 2 ^ 32 := by omega
      have hsucc : Nat.find hfind * c = (Nat.find hfind - 1) * c + c := by
        conv_lhs => rw [show Nat.find hfind = Nat.find hfind - 1 + 1 by omega]
        rw [Nat.succ_mul]
      have hmod : Nat.find hfind * c % 2 ^ 32 = Nat.find hfind * c - 2 ^ 32 := by
        rw [Nat.mod_eq_sub_mod hP, Nat.mod_eq_of_lt (by omega)]
      rw [Nat.mod_eq_of_lt hprevlt, hmod]
      omega

/-- Witness for claim C9 at chunk size 2^32 and payload length 2^32 + 5:
the wrap produces adjacent non-increasing offsets. -/
theorem c9_witness :
    (0 : Nat) < 2 ^ 32 ∧
    ∃ j a b, (planOffsets (2 ^ 32) (2 ^ 32 + 5)).get? j = some a ∧
      (planOffsets (2 ^ 32) (2 ^ 32 + 5)).get? (j + 1) = some b ∧
      b.1 ≤ a.1 := by
  refine ⟨by decide,
    (c9_amended (2 ^ 32) (2 ^ 32 + 5) (by decide)).2.2 (by decide) ?_⟩
  exact ⟨1, by decide⟩

/-- Claim C10: the buffer write path and the proposal write path are the
same chunk-and-dispatch computation: with equal baseline transaction sizes
they compute the same chunk size, identical plans on every payload, the
same per-message aggregation, and the same overall result. -/
theorem write_paths_equivalent {ε : Type} (baseBuf baseRelay : Nat)
    (h : baseBuf = baseRelay) (payload : List Nat)
    (send : List WriteUnit → List (Option ε)) :
    calculate_max_chunk_size baseBuf = calculate_max_chunk_size baseRelay ∧
    buildWriteMessages payload (calculate_max_chunk_size baseBuf)
      = buildRelayWriteMessages payload (calculate_max_chunk_size baseRelay) ∧
    (∀ results : List (Option ε),
      writePhaseResult results = relayWritePhaseResult results) ∧
    write_buffer baseBuf payload send
      = write_relay_round_proposal baseRelay payload send := by
  subst h
  refine ⟨rfl, rfl, fun _ => rfl, ?_⟩
  unfold write_buffer write_relay_round_proposal
  rfl

/-- Witness for claim C10 at baseline 100 and payload [1, 2, 3] with an
all-confirming dispatcher. -/
theorem c10_witness :
    write_buffer 100 [1, 2, 3] (fun ms => ms.map fun _ => (none : Option Unit))
      = write_relay_round_proposal 100 [1, 2, 3]
          (fun ms => ms.map fun _ => (none : Option Unit)) :=
  (write_paths_equivalent 100 100 rfl [1, 2, 3] _).2.2.2

end SolanaCli
